import Mathlib

/-!
Shallow embedding of the algobot position-lifecycle core (Python sources
`src/core/asset.py`, `src/core/position.py`, `src/services/position_service.py`,
`src/services/signal_processor.py`, `src/repositories/file_position_repository.py`)
together with theorems settling the frozen claims about it.

Conventions of the embedding:
* Python `Decimal` values are embedded as exact rationals (`ℚ`).  The
  string encoding used on the wire and on disk (`str(Decimal)` /
  `Decimal(str)`) is lossless, so serialization of a decimal is modelled
  as the identity on `ℚ`.
* Python `datetime` values are embedded as opaque naturals; `isoformat` /
  `fromisoformat` round-trip losslessly and are modelled as the identity.
* Fallible Python code (code that can raise) is embedded with
  `Except PyError`.
* Python `Decimal` floor division (`//`) truncates the true quotient
  toward zero; it is embedded as `truncQ` below.
-/

namespace AB

/-- Python exception kinds raised by the embedded code. -/
inductive PyError where
  | valueError (msg : String)
  | typeError (msg : String)
  | attributeError (msg : String)
  | nameError (msg : String)
  | exchangeError (msg : String)
  deriving Repr, DecidableEq

/-- Truncation toward zero of a rational, as Python `Decimal.__floordiv__`
computes the integer quotient: floor for non-negative arguments, ceiling
for negative ones. -/
def truncQ (x : ℚ) : ℤ :=
  if 0 ≤ x then ⌊x⌋ else ⌈x⌉

/-- `src/core/asset.py` — the `Asset` dataclass.  Numeric constraint
fields are optional decimals. -/
structure Asset where
  symbol : String
  asset_type : String
  exchange_id : String
  min_quantity : Option ℚ := none
  max_quantity : Option ℚ := none
  step_size : Option ℚ := none
  price_precision : Option ℤ := none
  quote_precision : Option ℤ := none
  deriving Repr, DecidableEq

/-- `Asset.ensure_valid_quantity` (`src/core/asset.py` lines 40-67):
clamp to `[min_quantity, max_quantity]` when set; when `step_size > 0`,
truncate down to a multiple of the step (`quantity // step * step`,
the subsequent `quantize(step, ROUND_DOWN)` does not change the value of
an exact multiple of the step); if the truncated result falls below
`min_quantity`, return zero. -/
def Asset.ensure_valid_quantity (a : Asset) (quantity : ℚ) : ℚ :=
  let q1 : ℚ := match a.min_quantity with
    | some m => max m quantity
    | none => quantity
  let q2 : ℚ := match a.max_quantity with
    | some m => min m q1
    | none => q1
  match a.step_size with
  | some s =>
    if 0 < s then
      let q3 : ℚ := (truncQ (q2 / s) : ℚ) * s
      match a.min_quantity with
      | some m => if q3 < m then 0 else q3
      | none => q3
    else q2
  | none => q2

/-- `src/core/position.py` — `PositionDirection`. -/
inductive PositionDirection where
  | LONG
  | SHORT
  deriving Repr, DecidableEq

/-- `src/core/position.py` — `PositionStatus`. -/
inductive PositionStatus where
  | OPEN
  | CLOSED
  deriving Repr, DecidableEq

/-- `src/core/position.py` — the `TakeProfit` dataclass. -/
structure TakeProfit where
  level : ℤ
  price : ℚ
  quantity : ℚ
  timestamp : ℕ := 0
  deriving Repr, DecidableEq

/-- The dictionary built by `Position.close` (`close_data`).  Its decimal
entries are stored as strings in Python; the string encoding is lossless
and elided here. -/
structure CloseData where
  timestamp : ℕ := 0
  price : ℚ
  quantity : ℚ
  value : ℚ
  reason : String
  external_id : Option String := none
  deriving Repr, DecidableEq

/-- `src/core/position.py` — the `Position` dataclass, after
`__post_init__` has run (so `remaining_quantity` is resolved and the
enum fields are parsed). -/
structure Position where
  asset : Asset
  direction : PositionDirection
  initial_quantity : ℚ
  entry_price : ℚ
  bot_strategy : String
  timeframe : String
  bot_settings : String := "default"
  leverage : ℚ := 1
  margin_type : Option String := none
  id : String := ""
  timestamp : ℕ := 0
  take_profits : List TakeProfit := []
  status : PositionStatus := PositionStatus.OPEN
  remaining_quantity : ℚ
  take_profit_max : ℤ := 3
  external_id : Option String := none
  close_data : Option CloseData := none
  deriving Repr, DecidableEq

/-- `Position.is_closed`. -/
def Position.is_closed (p : Position) : Bool :=
  p.status = PositionStatus.CLOSED

/-- `Position.close` (`src/core/position.py` lines 171-205): raise if
already closed; clamp the quantity to the remaining quantity; record
`close_data`; decrement `remaining_quantity`; mark the position CLOSED
(and force the remaining quantity to exactly zero) only when the
remaining quantity has dropped to zero or below. -/
def Position.close (p : Position) (price quantity : ℚ) (reason : String := "Manual close")
    (external_id : Option String := none) : Except PyError Position :=
  if p.is_closed then
    .error (.valueError "Position already closed")
  else
    let adjusted_quantity : ℚ := min quantity p.remaining_quantity
    let cd : CloseData :=
      { price := price
        quantity := adjusted_quantity
        value := price * adjusted_quantity
        reason := reason
        external_id := external_id }
    let p1 : Position :=
      { p with close_data := some cd
               remaining_quantity := p.remaining_quantity - adjusted_quantity }
    if p1.remaining_quantity ≤ 0 then
      .ok { p1 with status := PositionStatus.CLOSED, remaining_quantity := 0 }
    else
      .ok p1

/-- `Position.add_take_profit` (`src/core/position.py` lines 126-169):
reject on a closed position, on a level above `take_profit_max`, on a
duplicate level, and on a clamped quantity of zero or less; otherwise
record the take-profit, decrement the remaining quantity, and invoke
`close(price, 0)` when the level equals `take_profit_max` or no quantity
remains.  Returns the created take-profit together with the mutated
position. -/
def Position.add_take_profit (p : Position) (price quantity : ℚ) (level : ℤ) :
    Except PyError (TakeProfit × Position) :=
  if p.is_closed then
    .error (.valueError "Cannot add take profit to closed position")
  else if p.take_profit_max < level then
    .error (.valueError "Take profit level exceeds maximum")
  else if p.take_profits.any (fun tp => tp.level = level) then
    .error (.valueError "Take profit level already executed")
  else
    let adjusted_quantity : ℚ := min quantity p.remaining_quantity
    if adjusted_quantity ≤ 0 then
      .error (.valueError "No quantity available for take profit")
    else
      let tp : TakeProfit := { level := level, price := price, quantity := adjusted_quantity }
      let p1 : Position :=
        { p with take_profits := p.take_profits ++ [tp]
                 remaining_quantity := p.remaining_quantity - adjusted_quantity }
      if level = p.take_profit_max ∨ p1.remaining_quantity ≤ 0 then
        (p1.close price 0).map (fun p2 => (tp, p2))
      else
        .ok (tp, p1)

/-- A user-level mutating operation on a position: a take-profit
execution (`Position.add_take_profit`, whose internal auto-close is part
of the operation) or an explicit close (`Position.close`).  The
timestamps, reasons and external ids are irrelevant to the quantity
bookkeeping and are fixed to defaults. -/
inductive Op where
  | tp (price quantity : ℚ) (level : ℤ)
  | close (price quantity : ℚ)
  deriving Repr, DecidableEq

/-- Apply one operation to a position; the result of a take-profit
(the created `TakeProfit`) is discarded. -/
def applyOp (p : Position) : Op → Except PyError Position
  | .tp price quantity level => (p.add_take_profit price quantity level).map Prod.snd
  | .close price quantity => p.close price quantity

/-- Apply a sequence of operations left-to-right; the run fails as soon
as one operation raises (as the Python exception would propagate). -/
def applyOps (p : Position) : List Op → Except PyError Position
  | [] => .ok p
  | op :: ops => (applyOp p op).bind (fun p1 => applyOps p1 ops)

/-- Total quantity recorded across the position's take-profits. -/
def tpSum (p : Position) : ℚ :=
  (p.take_profits.map TakeProfit.quantity).sum

/-- The quantity recorded in `close_data`, or 0 when absent. -/
def closeDataQty (p : Position) : ℚ :=
  match p.close_data with
  | some cd => cd.quantity
  | none => 0

/-- A freshly constructed position (as built by
`PositionService.open_position`): no take-profits, no close data, OPEN,
with `remaining_quantity` initialized to `initial_quantity`. -/
def Fresh (p : Position) : Prop :=
  p.take_profits = [] ∧ p.close_data = none ∧ p.status = PositionStatus.OPEN ∧
    p.remaining_quantity = p.initial_quantity

/-! ### Serialization (`Position.to_dict` / `Position.from_dict`) -/

/-- One entry of the `take_profits` list produced by `Position.to_dict`
(`src/core/position.py` lines 299-308).  Decimal and datetime string
encodings are lossless and elided. -/
structure TPDict where
  level : ℤ
  price : ℚ
  quantity : ℚ
  timestamp : ℕ
  value : ℚ
  deriving Repr, DecidableEq

/-- The dictionary produced by `Position.to_dict`
(`src/core/position.py` lines 276-310).  The enum-valued fields
(`direction`, `status`) are serialized as their string values. -/
structure PositionDict where
  id : String
  external_id : Option String
  asset : String
  direction : String
  initial_quantity : ℚ
  remaining_quantity : ℚ
  entry_price : ℚ
  bot_strategy : String
  bot_settings : String
  timeframe : String
  leverage : ℚ
  margin_type : Option String
  timestamp : ℕ
  status : String
  take_profit_max : ℤ
  take_profits : List TPDict
  close_data : Option CloseData
  deriving Repr, DecidableEq

/-- Python `str.upper()` restricted to ASCII content (all enum values
involved are ASCII). -/
def pyUpper (s : String) : String := String.mk (s.data.map Char.toUpper)

/-- The `value` string of a `PositionDirection` member. -/
def PositionDirection.value : PositionDirection → String
  | .LONG => "LONG"
  | .SHORT => "SHORT"

/-- The `value` string of a `PositionStatus` member. -/
def PositionStatus.value : PositionStatus → String
  | .OPEN => "OPEN"
  | .CLOSED => "CLOSED"

/-- `PositionDirection(s)` — the enum lookup, raising `ValueError` on an
unknown value. -/
def parseDirection (s : String) : Except PyError PositionDirection :=
  if s = "LONG" then .ok .LONG
  else if s = "SHORT" then .ok .SHORT
  else .error (.valueError "not a valid PositionDirection")

/-- `PositionStatus(s)` — the enum lookup, raising `ValueError` on an
unknown value. -/
def parseStatus (s : String) : Except PyError PositionStatus :=
  if s = "OPEN" then .ok .OPEN
  else if s = "CLOSED" then .ok .CLOSED
  else .error (.valueError "not a valid PositionStatus")

/-- `Position.to_dict` (`src/core/position.py` lines 276-310). -/
def Position.to_dict (p : Position) : PositionDict :=
  { id := p.id
    external_id := p.external_id
    asset := p.asset.symbol
    direction := p.direction.value
    initial_quantity := p.initial_quantity
    remaining_quantity := p.remaining_quantity
    entry_price := p.entry_price
    bot_strategy := p.bot_strategy
    bot_settings := p.bot_settings
    timeframe := p.timeframe
    leverage := p.leverage
    margin_type := p.margin_type
    timestamp := p.timestamp
    status := p.status.value
    take_profit_max := p.take_profit_max
    take_profits := p.take_profits.map (fun tp =>
      { level := tp.level
        price := tp.price
        quantity := tp.quantity
        timestamp := tp.timestamp
        value := tp.price * tp.quantity })
    close_data := p.close_data }

/-- `Position.from_dict` (`src/core/position.py` lines 312-353): rebuild
the take-profit list, then construct the position; `__post_init__`
parses the `direction` and `status` strings after upper-casing them
(raising `ValueError` for unknown values), and keeps the provided
`remaining_quantity`. -/
def Position.from_dict (data : PositionDict) (asset : Asset) : Except PyError Position := do
  let take_profits : List TakeProfit := data.take_profits.map (fun tp =>
    { level := tp.level, price := tp.price, quantity := tp.quantity, timestamp := tp.timestamp })
  let direction ← parseDirection (pyUpper data.direction)
  let status ← parseStatus (pyUpper data.status)
  .ok { id := data.id
        asset := asset
        direction := direction
        initial_quantity := data.initial_quantity
        remaining_quantity := data.remaining_quantity
        entry_price := data.entry_price
        bot_strategy := data.bot_strategy
        timeframe := data.timeframe
        bot_settings := data.bot_settings
        leverage := data.leverage
        margin_type := data.margin_type
        timestamp := data.timestamp
        take_profits := take_profits
        status := status
        take_profit_max := data.take_profit_max
        external_id := data.external_id
        close_data := data.close_data }

/-! ### `PositionService.close_position` (`src/services/position_service.py`) -/

/-- One entry of an order's `fills` list. -/
structure Fill where
  price : ℚ
  qty : ℚ
  deriving Repr, DecidableEq

/-- The order dictionary returned by the exchange adapter's
`place_market_order`. -/
structure Order where
  fills : List Fill := []
  orderId : String := "N/A"
  deriving Repr, DecidableEq

/-- `PositionService._get_average_fill_price` (lines 187-203): the
quantity-weighted average price over the fills, or `None` when there are
no fills or zero total quantity. -/
def getAverageFillPrice (o : Order) : Option ℚ :=
  let total_cost : ℚ := (o.fills.map (fun f => f.price * f.qty)).sum
  let total_quantity : ℚ := (o.fills.map Fill.qty).sum
  if 0 < total_quantity then some (total_cost / total_quantity) else none

/-- The exchange adapter calls `close_position` makes, as a deterministic
oracle: each call either returns a value or raises. -/
structure Exchange where
  get_asset_info : Except PyError Asset
  get_current_price : Except PyError ℚ
  place_market_order : Except PyError Order

/-- Lines 471-520 of `close_position`: place the market order, extract
the executed price (fill-weighted average if truthy — Python `or`
treats `Decimal(0)` as falsy — else the current price), close the
position with the full remaining quantity and the order id, and return
it with the order.  The repository `update` performs no position
mutation and is elided. -/
def placeAndClose (ex : Exchange) (p1 : Position) (reason : String) :
    Except PyError (Position × Option Order) := do
  let ord ← ex.place_market_order
  let executed_price ← match getAverageFillPrice ord with
    | some ap => if ap = 0 then ex.get_current_price else .ok ap
    | none => ex.get_current_price
  let p2 ← p1.close executed_price p1.remaining_quantity reason (some ord.orderId)
  .ok (p2, some ord)

/-- The below-minimum early return (lines 459-466): fetch the current
price and close the position locally with an annotated reason,
returning no order. -/
def closeBelowMin (ex : Exchange) (p1 : Position) (reason : String) :
    Except PyError (Position × Option Order) := do
  let cp ← ex.get_current_price
  let p2 ← p1.close cp p1.remaining_quantity (reason ++ " (Below minimum quantity)")
  .ok (p2, none)

/-- The body of the outer `try` of `close_position` (lines 423-520),
including the inner quantity-adjustment `try` (lines 447-469).  When
`get_asset_info` raises, the inner `except` swallows the error and
execution falls through to line 472, which reads the local
`quantity_to_execute` that was never assigned — an `UnboundLocalError`
(a `NameError`).  When the below-minimum branch raises internally, the
inner `except` likewise swallows it and the order is placed with the
already-computed adjusted quantity. -/
def closePositionTryBody (ex : Exchange) (position : Position) (reason : String) :
    Except PyError (Position × Option Order) :=
  match ex.get_asset_info with
  | .error _ => .error (.nameError "quantity_to_execute")
  | .ok a =>
    let p1 : Position := { position with asset := a }
    let q0 : ℚ := p1.remaining_quantity
    let qty : ℚ := match a.step_size with
      | some s => if 0 < s then (truncQ (q0 / s) : ℚ) * s else q0
      | none => q0
    match a.min_quantity with
    | some m =>
      if qty < m then
        match closeBelowMin ex p1 reason with
        | .ok r => .ok r
        | .error _ => placeAndClose ex p1 reason
      else placeAndClose ex p1 reason
    | none => placeAndClose ex p1 reason

/-- `PositionService.close_position` (lines 385-561).  The repository
lookup result is passed in as `lookup`.  Two source-level slips are
embedded faithfully: line 415 reads `position.last_price`, an attribute
the `Position` dataclass does not define, raising `AttributeError`; and
the exception handler at line 540 calls `Position.close` with a keyword
argument `margin_details` that `close` does not accept, raising
`TypeError` (after the handler's current-price fetch, line 539, whose
own failure would propagate instead). -/
def close_position (ex : Exchange) (lookup : Option Position) (reason : String) :
    Except PyError (Position × Option Order) :=
  match lookup with
  | none => .error (.valueError "Position not found")
  | some position =>
    if position.is_closed then
      .ok (position, none)
    else if position.remaining_quantity ≤ 0 then
      .error (.attributeError "'Position' object has no attribute 'last_price'")
    else
      match closePositionTryBody ex position reason with
      | .ok r => .ok r
      | .error _ =>
        match ex.get_current_price with
        | .error e2 => .error e2
        | .ok _ =>
          .error (.typeError "close() got an unexpected keyword argument 'margin_details'")

/-! ### Signal processor bot-field resolution
(`src/services/signal_processor.py` lines 119-132) -/

/-- Split a character list at the first occurrence of `c`: the part
before it and the part after it, or `none` when `c` does not occur. -/
def splitFirstOn (c : Char) : List Char → Option (List Char × List Char)
  | [] => none
  | a :: rest =>
    if a = c then some ([], rest)
    else (splitFirstOn c rest).map (fun pr => (a :: pr.1, pr.2))

/-- Python `s.split("_", 1)`: at most one split, at the first
underscore. -/
def pySplit1Und (s : List Char) : List (List Char) :=
  match splitFirstOn '_' s with
  | some pr => [pr.1, pr.2]
  | none => [s]

/-- Lines 119-130 of `SignalProcessor.process_signal`: resolve
`(bot_strategy, bot_settings)` from the `bot` field and the optional
`botSettings` field.  Strings are embedded as character lists.  Python
truthiness of `bot_settings_raw`: `None` and the empty string are
falsy. -/
def resolveBot (bot : List Char) (botSettings : Option (List Char)) : List Char × List Char :=
  let settingsFalsy : Bool := match botSettings with
    | none => true
    | some s => s.isEmpty
  if settingsFalsy && bot.contains '_' then
    match pySplit1Und bot with
    | p0 :: p1 :: _ => (p0, p1)
    | [p0] => (p0, "default".data)
    | [] => ([], "default".data)
  else
    (bot, match botSettings with
          | some s => if s.isEmpty then "default".data else s
          | none => "default".data)

/-- Split at the last occurrence of `c`. -/
def splitLastOn (c : Char) (s : List Char) : Option (List Char × List Char) :=
  (splitFirstOn c s.reverse).map (fun pr => (pr.2.reverse, pr.1.reverse))

/-- The claim's wording of the resolution (to be compared with
`resolveBot`): without an explicit settings field, the `bot` field is
split on its last underscore — the strategy is the part before it, the
settings the part after it. -/
def claimResolveBot (bot : List Char) (botSettings : Option (List Char)) :
    List Char × List Char :=
  let settingsFalsy : Bool := match botSettings with
    | none => true
    | some s => s.isEmpty
  if settingsFalsy && bot.contains '_' then
    match splitLastOn '_' bot with
    | some pr => pr
    | none => (bot, "default".data)
  else
    (bot, match botSettings with
          | some s => if s.isEmpty then "default".data else s
          | none => "default".data)

/-! ### Repository deserialization
(`FilePositionRepository._create_position_from_dict`, lines 802-868) -/

/-- The `close_data` entry of a stored record: absent (`None`/missing),
present but an empty dict (falsy), or a non-empty dict. -/
inductive CloseDataField where
  | absent
  | empty
  | val (cd : CloseData)
  deriving Repr, DecidableEq

/-- A stored open-position record as read back from the JSON file; every
key may be missing (the loader supplies defaults via `.get`). -/
structure StoredPositionDict where
  direction : Option String := none
  initial_quantity : Option ℚ := none
  entry_price : Option ℚ := none
  bot_strategy : Option String := none
  timeframe : Option String := none
  bot_settings : Option String := none
  leverage : Option ℚ := none
  id : Option String := none
  timestamp : Option ℕ := none
  take_profit_max : Option ℤ := none
  external_id : Option String := none
  remaining_quantity : Option ℚ := none
  status : Option String := none
  take_profits : Option (List TPDict) := none
  close_data : CloseDataField := .absent
  deriving Repr, DecidableEq

/-- `FilePositionRepository._create_position_from_dict` (lines 802-868):
construct the position with defaults (`__post_init__` initializes
`remaining_quantity` to the initial quantity since the constructor is
not given one), then overwrite `remaining_quantity` and `status` from
the record when present, append the stored take-profits, force the
status to CLOSED when a truthy `close_data` is present, and finally
zero out a positive remaining quantity on a closed position. -/
def createPositionFromDict (data : StoredPositionDict) (asset : Asset) :
    Except PyError Position := do
  let direction ← parseDirection (pyUpper (data.direction.getD "LONG"))
  let p0 : Position :=
    { asset := asset
      direction := direction
      initial_quantity := data.initial_quantity.getD 0
      entry_price := data.entry_price.getD 0
      bot_strategy := data.bot_strategy.getD ""
      timeframe := data.timeframe.getD ""
      bot_settings := data.bot_settings.getD "default"
      leverage := data.leverage.getD 1
      id := data.id.getD ""
      timestamp := data.timestamp.getD 0
      take_profit_max := data.take_profit_max.getD 3
      external_id := data.external_id
      remaining_quantity := data.initial_quantity.getD 0
      status := PositionStatus.OPEN }
  let p1 : Position := match data.remaining_quantity with
    | some r => { p0 with remaining_quantity := r }
    | none => p0
  let p2 ← match data.status with
    | some s => (parseStatus (pyUpper s)).map (fun st => { p1 with status := st })
    | none => .ok p1
  let p3 : Position :=
    { p2 with take_profits := p2.take_profits ++ (data.take_profits.getD []).map (fun tp =>
        { level := tp.level, price := tp.price, quantity := tp.quantity,
          timestamp := tp.timestamp }) }
  let p4 : Position := match data.close_data with
    | .val cd => { p3 with close_data := some cd, status := PositionStatus.CLOSED }
    | _ => p3
  let p5 : Position :=
    if p4.status = PositionStatus.CLOSED ∧ 0 < p4.remaining_quantity then
      { p4 with remaining_quantity := 0 }
    else p4
  .ok p5

/-! ### Crash behavior of the open-positions file writers
(`FilePositionRepository._save_positions_transactional`, lines 437-505,
and `_save_positions_with_tempfile`, lines 507-541) -/

/-- The primitive file mutations the two save paths perform on the
open-positions file and the scratch temp file.  File contents are lists
of written chunks (a streaming `json.dump` emits the serialized data
incrementally); a partially performed write is a prefix of the chunk
list. -/
inductive SaveStep where
  | truncateMain
  | writeMain (chunk : String)
  | writeTemp (chunk : String)
  | replaceMainWithTemp
  deriving Repr, DecidableEq

/-- The two files a save touches. -/
structure FileSystem where
  main : List String
  temp : List String
  deriving Repr, DecidableEq

/-- Effect of one primitive step. -/
def applyStep (fs : FileSystem) : SaveStep → FileSystem
  | .truncateMain => { fs with main := [] }
  | .writeMain c => { fs with main := fs.main ++ [c] }
  | .writeTemp c => { fs with temp := fs.temp ++ [c] }
  | .replaceMainWithTemp => { fs with main := fs.temp }

/-- Run a list of steps. -/
def runSteps (fs : FileSystem) (steps : List SaveStep) : FileSystem :=
  steps.foldl applyStep fs

/-- The primary path of `_save_positions_transactional` (lines 489-493,
taken whenever the exclusive write lock is acquired): under the lock,
`f.seek(0); f.truncate()` then `json.dump(data, f)` — the open-positions
file is truncated in place and rewritten chunk by chunk. -/
def transactionalSteps (newChunks : List String) : List SaveStep :=
  SaveStep.truncateMain :: newChunks.map SaveStep.writeMain

/-- The fallback path `_save_positions_with_tempfile` (lines 519-530):
write the serialized data to a fresh temp file, then atomically replace
the open-positions file with it via `os.replace`. -/
def tempfileSteps (newChunks : List String) : List SaveStep :=
  newChunks.map SaveStep.writeTemp ++ [SaveStep.replaceMainWithTemp]

/-- The contents of the open-positions file a reader can observe if the
process crashes somewhere during the write: one state per number of
completed primitive steps (0 up to all of them). -/
def crashMainContents (fs : FileSystem) (steps : List SaveStep) : List (List String) :=
  (List.range (steps.length + 1)).map (fun k => (runSteps fs (steps.take k)).main)

/-- Decidable equality for `Except`, used to evaluate the embedded
fallible operations on concrete inputs. -/
instance {ε α : Type} [DecidableEq ε] [DecidableEq α] : DecidableEq (Except ε α) := fun x y =>
  match x, y with
  | .ok a, .ok b =>
    if h : a = b then .isTrue (h ▸ rfl) else .isFalse (fun hc => h (Except.ok.inj hc))
  | .error e, .error f =>
    if h : e = f then .isTrue (h ▸ rfl) else .isFalse (fun hc => h (Except.error.inj hc))
  | .ok _, .error _ => .isFalse (fun hc => Except.noConfusion hc)
  | .error _, .ok _ => .isFalse (fun hc => Except.noConfusion hc)

/-! ### Concrete inputs used by the evaluation theorems -/

/-- A plain asset with no exchange constraints. -/
def sampleAsset : Asset :=
  { symbol := "BTCUSDT", asset_type := "crypto", exchange_id := "binance" }

/-- A fresh OPEN long position of 10 units at entry 100 with
`take_profit_max = 1`. -/
def posMax1 : Position :=
  { asset := sampleAsset, direction := .LONG, initial_quantity := 10, entry_price := 100,
    bot_strategy := "strat", timeframe := "1h", remaining_quantity := 10, take_profit_max := 1 }

/-- A fresh OPEN long position of 10 units at entry 100 with the default
`take_profit_max = 3`. -/
def posFresh : Position :=
  { asset := sampleAsset, direction := .LONG, initial_quantity := 10, entry_price := 100,
    bot_strategy := "strat", timeframe := "1h", remaining_quantity := 10 }

/-- An OPEN position whose remaining quantity is already zero (as a
stored record reloaded by the repository can be). -/
def posZeroRemaining : Position :=
  { asset := sampleAsset, direction := .LONG, initial_quantity := 10, entry_price := 100,
    bot_strategy := "strat", timeframe := "1h", remaining_quantity := 0 }

/-- An exchange whose `place_market_order` raises and whose other calls
succeed. -/
def exchOrderFails : Exchange :=
  { get_asset_info := .ok sampleAsset
    get_current_price := .ok 105
    place_market_order := .error (.exchangeError "Binance API error") }

/-- C1: the claim says a take-profit at `level = take_profit_max` always
leaves the position CLOSED regardless of remaining quantity.  Evaluating
the code: on `posMax1` (remaining 10, max level 1), `add_take_profit`
at level 1 with quantity 4 succeeds, records the auto-close's
`close_data` with quantity 0, but leaves the status OPEN with remaining
quantity 6, because `close(price, 0)` marks CLOSED only when the
remaining quantity is ≤ 0. -/
theorem add_take_profit_at_max_level_leaves_status_open :
    (posMax1.add_take_profit 120 4 1).map
        (fun r => (r.2.status, r.2.remaining_quantity, closeDataQty r.2)) =
      .ok (PositionStatus.OPEN, 6, 0) := by
  simp only [posMax1, sampleAsset, Position.add_take_profit, Position.is_closed,
    Position.close, closeDataQty, Except.map]
  norm_num [min_def]
  try simp
  try norm_num [min_def]
  try simp

/-- C2 counterexample: two successful `close` operations (a partial
close of 3 then a close of 7) on a fresh position of 10 drive
`remaining_quantity` to 0, while the claimed equation
`initial − Σ tp − close_data.quantity` evaluates to 3, because the
second close overwrites `close_data` and the first close's quantity is
lost from the equation. -/
theorem double_close_breaks_remaining_equation :
    (applyOps posFresh [Op.close 100 3, Op.close 100 7]).map
        (fun p => (p.remaining_quantity, p.initial_quantity - tpSum p - closeDataQty p)) =
      .ok (0, 3) ∧ (0 : ℚ) ≠ 3 := by
  constructor
  · simp only [posFresh, sampleAsset, applyOps, applyOp, Position.close, Position.is_closed,
      tpSum, closeDataQty, Except.map, Except.bind]
    norm_num [min_def]
    try simp
    try norm_num [min_def]
    try simp
    try norm_num [min_def]
  · norm_num

/-- C3: the claim says that when the exchange adapter raises during
`close_position`, the error is caught and the position is closed
locally.  Evaluating the code on an open position and an adapter whose
`place_market_order` raises: the exception handler itself raises
`TypeError` — line 540 calls `Position.close` with the keyword argument
`margin_details`, which `close` does not accept — so `close_position`
propagates an exception and the position is never closed locally. -/
theorem close_position_handler_raises_type_error :
    close_position exchOrderFails (some posFresh) "Closure requested" =
      .error (.typeError "close() got an unexpected keyword argument 'margin_details'") := by
  simp only [close_position, closePositionTryBody, placeAndClose, closeBelowMin,
    exchOrderFails, posFresh, sampleAsset, Position.is_closed, Position.close,
    Except.bind, bind]
  norm_num
  try simp
  try norm_num
  try simp

/-- C4: the claim says `close_position` on an open position with zero
remaining quantity marks it CLOSED without an exchange order and
returns `(position, None)`.  Evaluating the code: line 415 reads
`position.last_price`, an attribute the `Position` dataclass does not
define, so the call raises `AttributeError` instead of returning. -/
theorem close_position_zero_remaining_raises_attribute_error :
    close_position exchOrderFails (some posZeroRemaining) "Closure requested" =
      .error (.attributeError "'Position' object has no attribute 'last_price'") := by
  simp only [close_position, posZeroRemaining, sampleAsset, Position.is_closed]
  norm_num
  try simp
  try norm_num

/-- C5: the claim (and the function's own docstring) say every write of
the open-positions file uses a temp-file-plus-atomic-rename pattern, so
a crash mid-write exposes only the complete old or complete new
content.  Evaluating the primary path of
`_save_positions_transactional` (taken whenever the write lock is
acquired): it truncates the file in place and streams the new JSON into
it, so the crash state after the truncate and the first chunk write
exposes content that is neither the old content nor the complete new
content. -/
theorem transactional_save_crash_exposes_partial_content :
    ["N1"] ∈ crashMainContents ⟨["OLD"], []⟩ (transactionalSteps ["N1", "N2"]) ∧
    ["N1"] ≠ ["OLD"] ∧ ["N1"] ≠ ["N1", "N2"] ∧
    (runSteps ⟨["OLD"], []⟩ (transactionalSteps ["N1", "N2"])).main = ["N1", "N2"] := by
  refine ⟨?_, by decide, by decide, by decide⟩
  decide

/-- C8 counterexample: for the bot field `a_b_c` with no explicit
settings field, the code resolves `(bot_strategy, bot_settings)` by
splitting on the FIRST underscore, giving `("a", "b_c")`, whereas the
claim's split on the last underscore would give `("a_b", "c")`. -/
theorem resolve_bot_splits_on_first_not_last :
    resolveBot "a_b_c".data none = ("a".data, "b_c".data) ∧
    claimResolveBot "a_b_c".data none = ("a_b".data, "c".data) ∧
    resolveBot "a_b_c".data none ≠ claimResolveBot "a_b_c".data none := by
  refine ⟨by decide, by decide, by decide⟩

/-- C9 counterexample: a stored record with a non-empty `close_data`, a
stored status of OPEN and a stored remaining quantity of −1
deserializes to a CLOSED position whose remaining quantity is −1, not
0: the loader zeroes the remaining quantity only when it is strictly
positive. -/
theorem negative_stored_remaining_survives_close_data :
    (createPositionFromDict
        { direction := some "LONG", initial_quantity := some 10, status := some "OPEN",
          remaining_quantity := some (-1),
          close_data := .val { price := 100, quantity := 1, value := 100, reason := "x" } }
        sampleAsset).map (fun p => (p.status, p.remaining_quantity)) =
      .ok (PositionStatus.CLOSED, -1) ∧ (-1 : ℚ) ≠ 0 := by
  constructor
  · simp only [createPositionFromDict, parseDirection, parseStatus, pyUpper,
      Position.is_closed, Except.bind, Except.map, bind, Option.getD]
    norm_num
    try simp
    try norm_num
    try simp
  · norm_num

/-- C10 counterexample: an asset whose `max_quantity` (3) is below its
`min_quantity` (5) — both constraints set, no step size — maps the
below-minimum request 1 to 3, not to the minimum 5: the max clamp is
applied after the min clamp, so the claim's conclusion
`ensure_valid_quantity q = min_quantity` fails. -/
theorem ensure_valid_quantity_capped_by_max_below_min :
    Asset.ensure_valid_quantity
        { symbol := "X", asset_type := "crypto", exchange_id := "e",
          min_quantity := some 5, max_quantity := some 3 } 1 = 3 ∧ (3 : ℚ) ≠ 5 := by
  constructor
  · simp only [Asset.ensure_valid_quantity]
    norm_num [min_def, max_def]
    try simp
    try norm_num [min_def, max_def]
  · norm_num

/-! ### C7: serialization round-trip -/

/-- Parsing the upper-cased serialized value of a direction recovers the
direction. -/
lemma parseDirection_value (d : PositionDirection) :
    parseDirection (pyUpper d.value) = .ok d := by
  cases d <;> decide

/-- Parsing the upper-cased serialized value of a status recovers the
status. -/
lemma parseStatus_value (s : PositionStatus) :
    parseStatus (pyUpper s.value) = .ok s := by
  cases s <;> decide

/-- C7: reconstructing a position from `to_dict` via `from_dict` with
the same asset yields a position with identical `remaining_quantity`,
identical `status`, and an identical take-profit list in the same
order.  (The reconstruction is in fact the identity on the whole
position.) -/
theorem position_to_dict_from_dict_roundtrip (p : Position) :
    (Position.from_dict p.to_dict p.asset).map
        (fun q => (q.remaining_quantity, q.status, q.take_profits)) =
      .ok (p.remaining_quantity, p.status, p.take_profits) := by
  have hround : Position.from_dict p.to_dict p.asset = .ok p := by
    simp only [Position.to_dict, Position.from_dict, parseDirection_value, parseStatus_value,
      Except.bind, bind, List.map_map]
    have hmap : ∀ l : List TakeProfit,
        l.map ((fun tp : TPDict =>
            ({ level := tp.level, price := tp.price, quantity := tp.quantity,
               timestamp := tp.timestamp } : TakeProfit)) ∘
          (fun tp : TakeProfit =>
            ({ level := tp.level, price := tp.price, quantity := tp.quantity,
               timestamp := tp.timestamp, value := tp.price * tp.quantity } : TPDict))) = l := by
      intro l
      induction l with
      | nil => rfl
      | cons a t ih => simp [ih]
    rw [hmap]
  rw [hround]
  rfl

/-! ### C8: bot-field resolution -/

/-- `splitFirstOn` splits at the first occurrence: the first component
is the longest prefix free of `c`, the second is everything after the
first `c`. -/
lemma splitFirstOn_of_mem (c : Char) (l : List Char) (h : c ∈ l) :
    splitFirstOn c l =
      some (l.takeWhile (fun a => a != c), (l.dropWhile (fun a => a != c)).tail) := by
  induction l with
  | nil => simp at h
  | cons a rest ih =>
    by_cases hac : a = c
    · subst hac
      simp [splitFirstOn, List.takeWhile, List.dropWhile]
    · have hcr : c ∈ rest := by
        rcases List.mem_cons.mp h with h1 | h1
        · exact absurd h1.symm hac
        · exact h1
      have hbne : (a != c) = true := by simp [bne_iff_ne, hac]
      simp [splitFirstOn, hac, ih hcr, List.takeWhile, List.dropWhile, hbne]

/-- C8 (amended): for a signal without an explicit `botSettings` field
whose `bot` field contains an underscore, the processor splits on the
FIRST underscore — `bot_strategy` is the longest underscore-free prefix
of the field and `bot_settings` is everything after that first
underscore. -/
theorem resolve_bot_splits_on_first_underscore (bot : List Char) (h : '_' ∈ bot) :
    resolveBot bot none =
      (bot.takeWhile (fun a => a != '_'), (bot.dropWhile (fun a => a != '_')).tail) := by
  have hc : bot.contains '_' = true := by
    simpa [List.contains] using h
  simp only [resolveBot, hc, Bool.true_and, if_true, pySplit1Und,
    splitFirstOn_of_mem '_' bot h]

/-- C8 witness: the amended theorem applied to the concrete bot field
`ab_cd`. -/
theorem resolve_bot_splits_on_first_underscore_witness :
    resolveBot "ab_cd".data none = ("ab".data, "cd".data) := by
  rw [resolve_bot_splits_on_first_underscore "ab_cd".data (by decide)]
  decide

/-! ### C9: close_data forces CLOSED on reload -/

/-- C9 (amended): whenever the repository's deserialization returns a
position for a stored record whose `close_data` is present and
non-empty, that position's status is CLOSED; and its remaining
quantity is 0 provided the effective stored remaining quantity (the
stored `remaining_quantity`, defaulting to the stored
`initial_quantity`, defaulting to 0) is non-negative — a negative
stored remaining quantity is preserved as-is. -/
theorem close_data_forces_closed_and_zero_remaining
    (data : StoredPositionDict) (asset : Asset) (cd : CloseData)
    (hcd : data.close_data = .val cd) (p : Position)
    (h : createPositionFromDict data asset = .ok p) :
    p.status = PositionStatus.CLOSED ∧
      (0 ≤ data.remaining_quantity.getD (data.initial_quantity.getD 0) →
        p.remaining_quantity = 0) := by
  simp only [createPositionFromDict, hcd, Except.bind, bind, Except.map] at h
  cases hd : parseDirection (pyUpper (data.direction.getD "LONG")) with
  | error e => rw [hd] at h; exact absurd h (by simp)
  | ok dir =>
    rw [hd] at h
    cases hrem : data.remaining_quantity with
    | some r =>
      rw [hrem] at h
      dsimp only at h
      cases hs : data.status with
      | none =>
        rw [hs] at h
        dsimp only at h
        by_cases hpos : (0 : ℚ) < r
        · rw [if_pos (by exact ⟨by trivial, hpos⟩)] at h
          cases h
          exact ⟨rfl, fun _ => rfl⟩
        · rw [if_neg (by intro hc; exact hpos hc.2)] at h
          cases h
          refine ⟨rfl, fun hnn => ?_⟩
          rw [Option.getD_some] at hnn
          exact le_antisymm (not_lt.mp hpos) hnn
      | some s =>
        rw [hs] at h
        dsimp only at h
        cases hps : parseStatus (pyUpper s) with
        | error e => rw [hps] at h; exact absurd h (by simp)
        | ok st =>
          rw [hps] at h
          dsimp only at h
          by_cases hpos : (0 : ℚ) < r
          · rw [if_pos (by exact ⟨by trivial, hpos⟩)] at h
            cases h
            exact ⟨rfl, fun _ => rfl⟩
          · rw [if_neg (by intro hc; exact hpos hc.2)] at h
            cases h
            refine ⟨rfl, fun hnn => ?_⟩
            rw [Option.getD_some] at hnn
            exact le_antisymm (not_lt.mp hpos) hnn
    | none =>
      rw [hrem] at h
      dsimp only at h
      cases hs : data.status with
      | none =>
        rw [hs] at h
        dsimp only at h
        by_cases hpos : (0 : ℚ) < data.initial_quantity.getD 0
        · rw [if_pos (by exact ⟨by trivial, hpos⟩)] at h
          cases h
          exact ⟨rfl, fun _ => rfl⟩
        · rw [if_neg (by intro hc; exact hpos hc.2)] at h
          cases h
          refine ⟨rfl, fun hnn => ?_⟩
          rw [Option.getD_none] at hnn
          exact le_antisymm (not_lt.mp hpos) hnn
      | some s =>
        rw [hs] at h
        dsimp only at h
        cases hps : parseStatus (pyUpper s) with
        | error e => rw [hps] at h; exact absurd h (by simp)
        | ok st =>
          rw [hps] at h
          dsimp only at h
          by_cases hpos : (0 : ℚ) < data.initial_quantity.getD 0
          · rw [if_pos (by exact ⟨by trivial, hpos⟩)] at h
            cases h
            exact ⟨rfl, fun _ => rfl⟩
          · rw [if_neg (by intro hc; exact hpos hc.2)] at h
            cases h
            refine ⟨rfl, fun hnn => ?_⟩
            rw [Option.getD_none] at hnn
            exact le_antisymm (not_lt.mp hpos) hnn

/-- C9 witness: the amended theorem applied to a concrete stored record
with `close_data` present, stored status OPEN and stored remaining
quantity 2: the reloaded position is CLOSED with remaining quantity
0. -/
theorem close_data_forces_closed_and_zero_remaining_witness :
    let cdW : CloseData := { price := 100, quantity := 8, value := 800, reason := "tp close" }
    let dW : StoredPositionDict :=
      { direction := some "LONG", initial_quantity := some 10,
        remaining_quantity := some 2, status := some "OPEN", close_data := .val cdW }
    let pW : Position :=
      { asset := sampleAsset, direction := .LONG, initial_quantity := 10, entry_price := 0,
        bot_strategy := "", timeframe := "", bot_settings := "default", leverage := 1,
        margin_type := none, id := "", timestamp := 0, take_profits := [],
        status := .CLOSED, remaining_quantity := 0, take_profit_max := 3,
        external_id := none, close_data := some cdW }
    pW.status = PositionStatus.CLOSED ∧ pW.remaining_quantity = 0 := by
  intro cdW dW pW
  have hok : createPositionFromDict dW sampleAsset = .ok pW := by
    simp only [createPositionFromDict, parseDirection, parseStatus, pyUpper, dW, cdW, pW,
      Except.bind, bind, Except.map, Option.getD]
    norm_num
    try simp
    try norm_num
  have hmain := close_data_forces_closed_and_zero_remaining dW sampleAsset cdW rfl pW hok
  exact ⟨hmain.1, hmain.2 (by norm_num [dW, Option.getD])⟩

/-! ### Arithmetic facts about `truncQ` (Decimal floor division) -/

/-- Truncation of an integer is that integer. -/
lemma truncQ_intCast (k : ℤ) : truncQ (k : ℚ) = k := by
  unfold truncQ
  split
  · exact Int.floor_intCast k
  · exact Int.ceil_intCast k

/-- Truncation toward zero is monotone. -/
lemma truncQ_mono {x y : ℚ} (h : x ≤ y) : truncQ x ≤ truncQ y := by
  unfold truncQ
  by_cases hx : 0 ≤ x <;> by_cases hy : 0 ≤ y
  · simp only [hx, hy, if_true]
    exact Int.floor_le_floor h
  · exact absurd (le_trans hx h) hy
  · simp only [hx, hy, if_true, if_false]
    calc ⌈x⌉ ≤ 0 := Int.ceil_le.mpr (by exact_mod_cast (not_le.mp hx).le)
    _ ≤ ⌊y⌋ := Int.le_floor.mpr (by exact_mod_cast hy)
  · simp only [hx, hy, if_false]
    exact Int.ceil_le_ceil h

/-- Truncating a quotient and re-multiplying never exceeds a
non-negative argument. -/
lemma truncQ_div_mul_le {x s : ℚ} (hs : 0 < s) (hx : 0 ≤ x) :
    (truncQ (x / s) : ℚ) * s ≤ x := by
  have hdiv : (0 : ℚ) ≤ x / s := div_nonneg hx hs.le
  unfold truncQ
  rw [if_pos hdiv]
  exact (le_div_iff hs).mp (Int.floor_le (x / s))

/-- Truncating a quotient of a non-negative argument stays
non-negative. -/
lemma truncQ_div_mul_nonneg {x s : ℚ} (hs : 0 < s) (hx : 0 ≤ x) :
    0 ≤ (truncQ (x / s) : ℚ) * s := by
  have hdiv : (0 : ℚ) ≤ x / s := div_nonneg hx hs.le
  unfold truncQ
  rw [if_pos hdiv]
  have h0 : (0 : ℤ) ≤ ⌊x / s⌋ := Int.floor_nonneg.mpr hdiv
  exact mul_nonneg (by exact_mod_cast h0) hs.le

/-- For a non-positive argument, truncation toward zero rounds up:
the result lies between the argument and zero. -/
lemma le_truncQ_div_mul {x s : ℚ} (hs : 0 < s) (hx : x ≤ 0) :
    x ≤ (truncQ (x / s) : ℚ) * s := by
  by_cases hx0 : 0 ≤ x
  · have hx0e : x = 0 := le_antisymm hx hx0
    subst hx0e
    simp [truncQ]
  · have hxneg : x < 0 := not_le.mp hx0
    have hdivneg : x / s < 0 := div_neg_of_neg_of_pos hxneg hs
    unfold truncQ
    rw [if_neg (not_le.mpr hdivneg)]
    exact (div_le_iff hs).mp (Int.le_ceil (x / s))

/-- For a non-positive argument, the truncated multiple is still
non-positive. -/
lemma truncQ_div_mul_nonpos {x s : ℚ} (hs : 0 < s) (hx : x ≤ 0) :
    (truncQ (x / s) : ℚ) * s ≤ 0 := by
  by_cases hx0 : 0 ≤ x
  · have hx0e : x = 0 := le_antisymm hx hx0
    subst hx0e
    simp [truncQ]
  · have hxneg : x < 0 := not_le.mp hx0
    have hdivneg : x / s < 0 := div_neg_of_neg_of_pos hxneg hs
    unfold truncQ
    rw [if_neg (not_le.mpr hdivneg)]
    have hc : ⌈x / s⌉ ≤ 0 := Int.ceil_le.mpr (by exact_mod_cast hdivneg.le)
    exact mul_nonpos_of_nonpos_of_nonneg (by exact_mod_cast hc) hs.le

/-- An exact multiple of the step is a fixed point of the
truncate-divide-multiply adjustment. -/
lemma truncQ_div_mul_self {s : ℚ} (k : ℤ) (hs : s ≠ 0) :
    (truncQ ((k : ℚ) * s / s) : ℚ) * s = (k : ℚ) * s := by
  rw [mul_div_cancel_right₀ _ hs, truncQ_intCast]

/-! ### C10: below-minimum requests are raised to the minimum -/

/-- C10 (amended): for an asset whose `min_quantity` `m` is set and is
an exact multiple of a positive `step_size` (or whose `step_size` is
unset), and whose `max_quantity` is unset or at least `m`, every input
quantity strictly between 0 and `m` is raised to exactly `m` — the
function can return strictly more than requested. -/
theorem ensure_valid_quantity_raises_below_min_to_min (a : Asset) (m q : ℚ)
    (hm : a.min_quantity = some m)
    (hmax : a.max_quantity = none ∨ ∃ M, a.max_quantity = some M ∧ m ≤ M)
    (hstep : a.step_size = none ∨
      ∃ s, a.step_size = some s ∧ 0 < s ∧ ∃ k : ℤ, m = (k : ℚ) * s)
    (hq0 : 0 < q) (hqm : q < m) :
    a.ensure_valid_quantity q = m := by
  unfold Asset.ensure_valid_quantity
  rw [hm]
  dsimp only
  have hq1 : max m q = m := max_eq_left hqm.le
  rw [hq1]
  have hq2 : (match a.max_quantity with
      | some mx => min mx m
      | none => m) = m := by
    rcases hmax with hno | ⟨M, hM, hmM⟩
    · rw [hno]
    · rw [hM]
      exact min_eq_right hmM
  rw [hq2]
  rcases hstep with hno | ⟨s, hs, hspos, k, hk⟩
  · rw [hno]
  · rw [hs]
    dsimp only
    rw [if_pos hspos]
    have hq3 : (truncQ (m / s) : ℚ) * s = m := by
      rw [hk]
      exact truncQ_div_mul_self k hspos.ne'
    rw [hq3, if_neg (lt_irrefl m)]

/-- C10 witness: the amended theorem applied to a concrete asset with
minimum 5, no maximum, step 1 (5 is a multiple of 1): the request 2 is
raised to 5. -/
theorem ensure_valid_quantity_raises_below_min_to_min_witness :
    Asset.ensure_valid_quantity
      { symbol := "X", asset_type := "crypto", exchange_id := "e",
        min_quantity := some 5, step_size := some 1 } 2 = 5 := by
  exact ensure_valid_quantity_raises_below_min_to_min _ 5 2 rfl (Or.inl rfl)
    (Or.inr ⟨1, rfl, by norm_num, 5, by norm_num⟩) (by norm_num) (by norm_num)

/-! ### C6: `ensure_valid_quantity` is idempotent and step-aligned -/

/-- The min/max clamping stage of `ensure_valid_quantity` (lines
50-54). -/
def clampQ (a : Asset) (x : ℚ) : ℚ :=
  let q1 : ℚ := match a.min_quantity with
    | some m => max m x
    | none => x
  match a.max_quantity with
  | some m => min m q1
  | none => q1

/-- The step-size adjustment stage of `ensure_valid_quantity` (lines
57-67). -/
def stepQ (a : Asset) (x : ℚ) : ℚ :=
  match a.step_size with
  | some s =>
    if 0 < s then
      let q3 : ℚ := (truncQ (x / s) : ℚ) * s
      match a.min_quantity with
      | some m => if q3 < m then 0 else q3
      | none => q3
    else x
  | none => x

/-- `ensure_valid_quantity` is the step adjustment after the clamp. -/
lemma ensure_valid_quantity_decomp (a : Asset) (x : ℚ) :
    a.ensure_valid_quantity x = stepQ a (clampQ a x) := rfl

lemma clampQ_nn (a : Asset) (x : ℚ) (hmin : a.min_quantity = none)
    (hmax : a.max_quantity = none) : clampQ a x = x := by
  simp only [clampQ, hmin, hmax]

lemma clampQ_ns (a : Asset) (x M : ℚ) (hmin : a.min_quantity = none)
    (hmax : a.max_quantity = some M) : clampQ a x = min M x := by
  simp only [clampQ, hmin, hmax]

lemma clampQ_sn (a : Asset) (x m : ℚ) (hmin : a.min_quantity = some m)
    (hmax : a.max_quantity = none) : clampQ a x = max m x := by
  simp only [clampQ, hmin, hmax]

lemma clampQ_ss (a : Asset) (x m M : ℚ) (hmin : a.min_quantity = some m)
    (hmax : a.max_quantity = some M) : clampQ a x = min M (max m x) := by
  simp only [clampQ, hmin, hmax]

/-- The clamping stage is idempotent. -/
lemma clampQ_idem (a : Asset) (x : ℚ) : clampQ a (clampQ a x) = clampQ a x := by
  rcases hmin : a.min_quantity with _ | m <;> rcases hmax : a.max_quantity with _ | M
  · rw [clampQ_nn a x hmin hmax, clampQ_nn a x hmin hmax]
  · rw [clampQ_ns a x M hmin hmax, clampQ_ns a (min M x) M hmin hmax, ← min_assoc, min_self]
  · rw [clampQ_sn a x m hmin hmax, clampQ_sn a (max m x) m hmin hmax, ← max_assoc, max_self]
  · rw [clampQ_ss a x m M hmin hmax, clampQ_ss a (min M (max m x)) m M hmin hmax]
    rcases le_total (max m x) M with h | h
    · rw [min_eq_right h, max_eq_right (le_max_left m x), min_eq_right h]
    · rw [min_eq_left h, min_eq_left (le_max_right m M)]

/-- The clamping stage is monotone. -/
lemma clampQ_mono (a : Asset) {x y : ℚ} (h : x ≤ y) : clampQ a x ≤ clampQ a y := by
  rcases hmin : a.min_quantity with _ | m <;> rcases hmax : a.max_quantity with _ | M
  · rw [clampQ_nn a x hmin hmax, clampQ_nn a y hmin hmax]; exact h
  · rw [clampQ_ns a x M hmin hmax, clampQ_ns a y M hmin hmax]
    exact min_le_min le_rfl h
  · rw [clampQ_sn a x m hmin hmax, clampQ_sn a y m hmin hmax]
    exact max_le_max le_rfl h
  · rw [clampQ_ss a x m M hmin hmax, clampQ_ss a y m M hmin hmax]
    exact min_le_min le_rfl (max_le_max le_rfl h)

lemma stepQ_none (a : Asset) (x : ℚ) (hss : a.step_size = none) : stepQ a x = x := by
  simp only [stepQ, hss]

lemma stepQ_nonpos (a : Asset) (x s : ℚ) (hss : a.step_size = some s) (h : ¬ 0 < s) :
    stepQ a x = x := by
  simp only [stepQ, hss, if_neg h]

lemma stepQ_pos_min_none (a : Asset) (x s : ℚ) (hss : a.step_size = some s) (hsp : 0 < s)
    (hmin : a.min_quantity = none) : stepQ a x = (truncQ (x / s) : ℚ) * s := by
  simp only [stepQ, hss, if_pos hsp, hmin]

lemma stepQ_pos_min_some (a : Asset) (x s m : ℚ) (hss : a.step_size = some s) (hsp : 0 < s)
    (hmin : a.min_quantity = some m) :
    stepQ a x =
      if (truncQ (x / s) : ℚ) * s < m then 0 else (truncQ (x / s) : ℚ) * s := by
  simp only [stepQ, hss, if_pos hsp, hmin]

/-- Monotonicity of the truncate-divide-multiply adjustment. -/
lemma truncQ_div_mul_mono {s : ℚ} (hs : 0 < s) {x y : ℚ} (h : x ≤ y) :
    (truncQ (x / s) : ℚ) * s ≤ (truncQ (y / s) : ℚ) * s := by
  have hdiv : x / s ≤ y / s := by
    apply div_le_div_of_nonneg_right h hs.le
  have ht := truncQ_mono hdiv
  exact mul_le_mul_of_nonneg_right (by exact_mod_cast ht) hs.le

/-- Applying the adjustment twice equals applying it once. -/
lemma truncQ_div_mul_idem {s : ℚ} (hs : 0 < s) (x : ℚ) :
    (truncQ ((truncQ (x / s) : ℚ) * s / s) : ℚ) * s = (truncQ (x / s) : ℚ) * s :=
  truncQ_div_mul_self (truncQ (x / s)) hs.ne'

/-- A minimum that comes out negative against a non-negative second
argument must be the first argument. -/
lemma min_eq_left_of_neg {M q : ℚ} (h : min M q < 0) (hq : 0 ≤ q) : min M q = M := by
  rcases le_total M q with hMq | hMq
  · exact min_eq_left hMq
  · exact absurd (min_eq_right hMq ▸ h) (not_lt.mpr hq)

/-- Re-clamping the step-adjusted value and re-adjusting it changes
nothing, provided the adjusted value is not below the minimum (when a
minimum is set). -/
lemma clampQ_adjusted_fix (a : Asset) (q : ℚ) (hq : 0 ≤ q) {s : ℚ} (hsp : 0 < s)
    (hminP : ∀ m, a.min_quantity = some m → m ≤ (truncQ (clampQ a q / s) : ℚ) * s) :
    (truncQ (clampQ a ((truncQ (clampQ a q / s) : ℚ) * s) / s) : ℚ) * s =
      (truncQ (clampQ a q / s) : ℚ) * s := by
  rcases hmin : a.min_quantity with _ | m <;> rcases hmax : a.max_quantity with _ | M
  · rw [clampQ_nn a _ hmin hmax]
    exact truncQ_div_mul_idem hsp _
  · have hceq : clampQ a q = min M q := clampQ_ns a q M hmin hmax
    rw [clampQ_ns a _ M hmin hmax]
    by_cases hc0 : 0 ≤ clampQ a q
    · have hrc : (truncQ (clampQ a q / s) : ℚ) * s ≤ clampQ a q :=
        truncQ_div_mul_le hsp hc0
      have hcM : clampQ a q ≤ M := by rw [hceq]; exact min_le_left M q
      rw [min_eq_right (le_trans hrc hcM)]
      exact truncQ_div_mul_idem hsp _
    · have hcneg : clampQ a q < 0 := not_le.mp hc0
      have hcM : clampQ a q = M := by
        rw [hceq]
        exact min_eq_left_of_neg (hceq ▸ hcneg) hq
      have hMr : M ≤ (truncQ (clampQ a q / s) : ℚ) * s := by
        rw [← hcM]
        exact le_truncQ_div_mul hsp hcneg.le
      rw [min_eq_left hMr, hcM]
  · have hmr : m ≤ (truncQ (clampQ a q / s) : ℚ) * s := hminP m hmin
    rw [clampQ_sn a _ m hmin hmax, max_eq_right hmr]
    exact truncQ_div_mul_idem hsp _
  · have hmr : m ≤ (truncQ (clampQ a q / s) : ℚ) * s := hminP m hmin
    have hceq : clampQ a q = min M (max m q) := clampQ_ss a q m M hmin hmax
    rw [clampQ_ss a _ m M hmin hmax, max_eq_right hmr]
    by_cases hc0 : 0 ≤ clampQ a q
    · have hrc : (truncQ (clampQ a q / s) : ℚ) * s ≤ clampQ a q :=
        truncQ_div_mul_le hsp hc0
      have hcM : clampQ a q ≤ M := by rw [hceq]; exact min_le_left _ _
      rw [min_eq_right (le_trans hrc hcM)]
      exact truncQ_div_mul_idem hsp _
    · have hcneg : clampQ a q < 0 := not_le.mp hc0
      have hmaxq : 0 ≤ max m q := le_trans hq (le_max_right m q)
      have hcM : clampQ a q = M := by
        rw [hceq]
        exact min_eq_left_of_neg (hceq ▸ hcneg) hmaxq
      have hMr : M ≤ (truncQ (clampQ a q / s) : ℚ) * s := by
        rw [← hcM]
        exact le_truncQ_div_mul hsp hcneg.le
      rw [min_eq_left hMr, hcM]

/-- When the step stage returns zero because the adjusted value fell
below the minimum, re-running the whole function on zero returns zero
again. -/
lemma ensure_valid_quantity_zero_fix (a : Asset) {s m : ℚ} (hss : a.step_size = some s)
    (hsp : 0 < s) (hmin : a.min_quantity = some m) (q : ℚ) (hq : 0 ≤ q)
    (hlt : (truncQ (clampQ a q / s) : ℚ) * s < m) :
    a.ensure_valid_quantity 0 = 0 := by
  rw [ensure_valid_quantity_decomp, stepQ_pos_min_some a _ s m hss hsp hmin]
  have hmono : clampQ a 0 ≤ clampQ a q := clampQ_mono a hq
  have hTmono := truncQ_div_mul_mono hsp hmono
  rw [if_pos (lt_of_le_of_lt hTmono hlt)]

/-- `ensure_valid_quantity` is idempotent on non-negative inputs. -/
lemma ensure_valid_quantity_idem (a : Asset) (q : ℚ) (hq : 0 ≤ q) :
    a.ensure_valid_quantity (a.ensure_valid_quantity q) = a.ensure_valid_quantity q := by
  rcases hss : a.step_size with _ | s
  · rw [ensure_valid_quantity_decomp, ensure_valid_quantity_decomp,
      stepQ_none a _ hss, stepQ_none a _ hss, clampQ_idem]
  · by_cases hsp : 0 < s
    · rcases hmin : a.min_quantity with _ | m
      · rw [ensure_valid_quantity_decomp a q, stepQ_pos_min_none a _ s hss hsp hmin,
          ensure_valid_quantity_decomp, stepQ_pos_min_none a _ s hss hsp hmin]
        exact clampQ_adjusted_fix a q hq hsp
          (fun m hm => absurd (hmin ▸ hm) (by simp))
      · rw [ensure_valid_quantity_decomp a q, stepQ_pos_min_some a _ s m hss hsp hmin]
        by_cases hlt : (truncQ (clampQ a q / s) : ℚ) * s < m
        · rw [if_pos hlt]
          exact ensure_valid_quantity_zero_fix a hss hsp hmin q hq hlt
        · rw [if_neg hlt, ensure_valid_quantity_decomp,
            stepQ_pos_min_some a _ s m hss hsp hmin]
          have hmr : m ≤ (truncQ (clampQ a q / s) : ℚ) * s := not_lt.mp hlt
          have hfix := clampQ_adjusted_fix a q hq hsp
            (fun m2 hm2 => by
              rw [hmin] at hm2
              exact (Option.some.inj hm2) ▸ hmr)
          rw [hfix, if_neg hlt]
    · rw [ensure_valid_quantity_decomp, ensure_valid_quantity_decomp,
        stepQ_nonpos a _ s hss hsp, stepQ_nonpos a _ s hss hsp, clampQ_idem]

/-- With a positive step size set, the output is an integer multiple of
the step (zero included). -/
lemma ensure_valid_quantity_step_multiple (a : Asset) (q s : ℚ)
    (hss : a.step_size = some s) (hsp : 0 < s) :
    ∃ k : ℤ, a.ensure_valid_quantity q = (k : ℚ) * s := by
  rw [ensure_valid_quantity_decomp]
  rcases hmin : a.min_quantity with _ | m
  · rw [stepQ_pos_min_none a _ s hss hsp hmin]
    exact ⟨truncQ (clampQ a q / s), rfl⟩
  · rw [stepQ_pos_min_some a _ s m hss hsp hmin]
    by_cases hlt : (truncQ (clampQ a q / s) : ℚ) * s < m
    · rw [if_pos hlt]
      exact ⟨0, by norm_num⟩
    · rw [if_neg hlt]
      exact ⟨truncQ (clampQ a q / s), rfl⟩

/-- C6: for every asset and non-negative quantity, `ensure_valid_quantity`
is idempotent, and when a positive `step_size` is set its output is an
exact integer multiple of the step or exactly zero. -/
theorem ensure_valid_quantity_idempotent_and_step_aligned (a : Asset) (q s : ℚ)
    (hq : 0 ≤ q) :
    a.ensure_valid_quantity (a.ensure_valid_quantity q) = a.ensure_valid_quantity q ∧
      (a.step_size = some s → 0 < s →
        ∃ k : ℤ, a.ensure_valid_quantity q = (k : ℚ) * s) :=
  ⟨ensure_valid_quantity_idem a q hq,
    fun hss hsp => ensure_valid_quantity_step_multiple a q s hss hsp⟩

/-- C6 witness: the theorem applied to a concrete asset (min 1/2,
max 100, step 1/10) and the concrete quantity 7/3. -/
theorem ensure_valid_quantity_idempotent_and_step_aligned_witness :
    let A : Asset :=
      { symbol := "X", asset_type := "crypto", exchange_id := "e",
        min_quantity := some (1/2), max_quantity := some 100, step_size := some (1/10) }
    (0 : ℚ) ≤ 7/3 ∧
      (A.ensure_valid_quantity (A.ensure_valid_quantity (7/3)) =
          A.ensure_valid_quantity (7/3) ∧
        (A.step_size = some (1/10) → (0 : ℚ) < 1/10 →
          ∃ k : ℤ, A.ensure_valid_quantity (7/3) = (k : ℚ) * (1/10))) := by
  intro A
  exact ⟨by norm_num,
    ensure_valid_quantity_idempotent_and_step_aligned A (7/3) (1/10) (by norm_num)⟩

/-! ### C2: the remaining-quantity bookkeeping invariant -/

/-- A successful `close` always leaves a non-negative remaining
quantity (zero in the closing branch, strictly positive in the partial
branch). -/
lemma close_ok_remaining_nonneg {p : Position} {price q : ℚ} {r : String}
    {e : Option String} {p2 : Position} (h : p.close price q r e = .ok p2) :
    0 ≤ p2.remaining_quantity := by
  simp only [Position.close] at h
  split at h
  · exact absurd h (by simp)
  · split at h
    · simp only [Except.ok.injEq] at h
      subst h
      exact le_refl 0
    · rename_i hgt
      simp only [Except.ok.injEq] at h
      subst h
      exact (lt_of_not_le hgt).le

/-- A successful `add_take_profit` always leaves a non-negative
remaining quantity. -/
lemma add_tp_ok_remaining_nonneg {p : Position} {price q : ℚ} {l : ℤ}
    {tp : TakeProfit} {p2 : Position}
    (h : p.add_take_profit price q l = .ok (tp, p2)) :
    0 ≤ p2.remaining_quantity := by
  simp only [Position.add_take_profit] at h
  split at h
  · exact absurd h (by simp)
  · split at h
    · exact absurd h (by simp)
    · split at h
      · exact absurd h (by simp)
      · split at h
        · exact absurd h (by simp)
        · split at h
          · cases hc : Position.close _ price 0 with
            | error e => rw [hc] at h; simp [Except.map] at h
            | ok p3 =>
              rw [hc] at h
              simp only [Except.map, Except.ok.injEq, Prod.mk.injEq] at h
              rw [← h.2]
              exact close_ok_remaining_nonneg hc
          · rename_i hcond
            simp only [Except.ok.injEq, Prod.mk.injEq] at h
            rw [← h.2]
            have hgt : ¬ p.remaining_quantity - min q p.remaining_quantity ≤ 0 :=
              fun hc => hcond (Or.inr hc)
            exact (lt_of_not_le hgt).le

/-- A successful operation always leaves a non-negative remaining
quantity. -/
lemma applyOp_ok_remaining_nonneg {p p2 : Position} {o : Op}
    (h : applyOp p o = .ok p2) : 0 ≤ p2.remaining_quantity := by
  cases o with
  | tp price quantity level =>
    simp only [applyOp] at h
    cases ha : p.add_take_profit price quantity level with
    | error e => rw [ha] at h; simp [Except.map] at h
    | ok pr =>
      rw [ha] at h
      simp only [Except.map, Except.ok.injEq] at h
      subst h
      have hb : p.add_take_profit price quantity level = .ok (pr.1, pr.2) := by rw [ha]
      exact add_tp_ok_remaining_nonneg hb
  | close price quantity =>
    exact close_ok_remaining_nonneg h

/-- Non-negativity of the remaining quantity is preserved along any
successful run. -/
lemma applyOps_ok_remaining_nonneg :
    ∀ (ops : List Op) (p p2 : Position), 0 ≤ p.remaining_quantity →
      applyOps p ops = .ok p2 → 0 ≤ p2.remaining_quantity := by
  intro ops
  induction ops with
  | nil =>
    intro p p2 hp h
    simp only [applyOps, Except.ok.injEq] at h
    subst h
    exact hp
  | cons o t ih =>
    intro p p2 hp h
    simp only [applyOps] at h
    cases ho : applyOp p o with
    | error e => rw [ho] at h; simp [Except.bind] at h
    | ok p1 =>
      rw [ho] at h
      simp only [Except.bind] at h
      exact ih p1 p2 (applyOp_ok_remaining_nonneg ho) h

/-- The bookkeeping invariant maintained while only take-profits (and
their internal zero-quantity auto-closes) have run: the remaining
quantity is the initial quantity minus the recorded take-profit total,
it is non-negative, and any recorded `close_data` carries quantity
zero. -/
def QuantInv (p : Position) : Prop :=
  0 ≤ p.remaining_quantity ∧
    p.remaining_quantity = p.initial_quantity - tpSum p ∧
    closeDataQty p = 0

/-- A zero-quantity `close` (the auto-close) preserves the
invariant. -/
lemma close_zero_preserves_inv {p p2 : Position} {price : ℚ} (hI : QuantInv p)
    (h : p.close price 0 = .ok p2) : QuantInv p2 := by
  obtain ⟨hnn, heq, hcd⟩ := hI
  simp only [Position.close, min_eq_left hnn, sub_zero] at h
  split at h
  · exact absurd h (by simp)
  · split at h
    · rename_i hle
      simp only [Except.ok.injEq] at h
      subst h
      refine ⟨le_refl 0, ?_, ?_⟩
      · simp only [tpSum]
        rw [show p.initial_quantity - (p.take_profits.map TakeProfit.quantity).sum =
            p.remaining_quantity from heq.symm]
        exact (le_antisymm hle hnn).symm
      · simp [closeDataQty]
    · simp only [Except.ok.injEq] at h
      subst h
      exact ⟨hnn, heq, by simp [closeDataQty]⟩

/-- A successful `add_take_profit` (auto-close included) preserves the
invariant. -/
lemma add_tp_preserves_inv {p p2 : Position} {price q : ℚ} {l : ℤ} {tp : TakeProfit}
    (hI : QuantInv p) (h : p.add_take_profit price q l = .ok (tp, p2)) : QuantInv p2 := by
  obtain ⟨hnn, heq, hcd⟩ := hI
  have hadjle : min q p.remaining_quantity ≤ p.remaining_quantity := min_le_right _ _
  simp only [Position.add_take_profit] at h
  split at h
  · exact absurd h (by simp)
  · split at h
    · exact absurd h (by simp)
    · split at h
      · exact absurd h (by simp)
      · split at h
        · exact absurd h (by simp)
        · split at h
          · cases hc : Position.close _ price 0 with
            | error e => rw [hc] at h; simp [Except.map] at h
            | ok p3 =>
              rw [hc] at h
              simp only [Except.map, Except.ok.injEq, Prod.mk.injEq] at h
              rw [← h.2]
              refine close_zero_preserves_inv ⟨?_, ?_, ?_⟩ hc
              · exact sub_nonneg.mpr hadjle
              · simp only [tpSum, List.map_append, List.sum_append, List.map_cons,
                  List.map_nil, List.sum_cons, List.sum_nil]
                rw [heq]
                simp [tpSum]
                ring
              · simpa [closeDataQty] using hcd
          · simp only [Except.ok.injEq, Prod.mk.injEq] at h
            rw [← h.2]
            refine ⟨sub_nonneg.mpr hadjle, ?_, ?_⟩
            · simp only [tpSum, List.map_append, List.sum_append, List.map_cons,
                List.map_nil, List.sum_cons, List.sum_nil]
              rw [heq]
              simp [tpSum]
              ring
            · simpa [closeDataQty] using hcd

/-- Decomposition of a run over list concatenation. -/
lemma applyOps_append (p : Position) (l1 l2 : List Op) :
    applyOps p (l1 ++ l2) = (applyOps p l1).bind (fun p1 => applyOps p1 l2) := by
  induction l1 generalizing p with
  | nil => rfl
  | cons o t ih =>
    simp only [List.cons_append, applyOps]
    cases ho : applyOp p o with
    | error e => simp [Except.bind]
    | ok p1 => simp [Except.bind, ih]

/-- A successful run consisting of take-profit operations only
preserves the invariant. -/
lemma tp_run_preserves_inv :
    ∀ (ops : List Op), (∀ o ∈ ops, ∃ price quantity level, o = Op.tp price quantity level) →
      ∀ p p2 : Position, QuantInv p → applyOps p ops = .ok p2 → QuantInv p2 := by
  intro ops
  induction ops with
  | nil =>
    intro _ p p2 hI h
    simp only [applyOps, Except.ok.injEq] at h
    subst h
    exact hI
  | cons o t ih =>
    intro hall p p2 hI h
    obtain ⟨a, b, c, rfl⟩ := hall o (List.mem_cons_self o t)
    simp only [applyOps] at h
    cases ho : applyOp p (Op.tp a b c) with
    | error e => rw [ho] at h; simp [Except.bind] at h
    | ok p1 =>
      rw [ho] at h
      simp only [Except.bind] at h
      have hI1 : QuantInv p1 := by
        simp only [applyOp] at ho
        cases ha : p.add_take_profit a b c with
        | error e => rw [ha] at ho; simp [Except.map] at ho
        | ok pr =>
          rw [ha] at ho
          simp only [Except.map, Except.ok.injEq] at ho
          subst ho
          have hb : p.add_take_profit a b c = .ok (pr.1, pr.2) := by rw [ha]
          exact add_tp_preserves_inv hI hb
      exact ih (fun o hm => hall o (List.mem_cons_of_mem _ hm)) p1 p2 hI1 h

/-- One final `close` on a state satisfying the invariant establishes
the claimed equation (the recorded close quantity is exactly what was
deducted). -/
lemma close_final_equation {p p2 : Position} {price q : ℚ} {r : String}
    {e : Option String} (hI : QuantInv p) (h : p.close price q r e = .ok p2) :
    p2.remaining_quantity = p2.initial_quantity - tpSum p2 - closeDataQty p2 := by
  obtain ⟨hnn, heq, _⟩ := hI
  have hadjle : min q p.remaining_quantity ≤ p.remaining_quantity := min_le_right _ _
  simp only [Position.close] at h
  split at h
  · exact absurd h (by simp)
  · split at h
    · rename_i hle
      simp only [Except.ok.injEq] at h
      subst h
      simp only [tpSum, closeDataQty]
      have hzero : p.remaining_quantity - min q p.remaining_quantity = 0 :=
        le_antisymm hle (sub_nonneg.mpr hadjle)
      simp only [tpSum] at heq
      linarith [heq, hzero]
    · simp only [Except.ok.injEq] at h
      subst h
      simp only [tpSum, closeDataQty]
      simp only [tpSum] at heq
      linarith [heq]

/-- C2 (amended): for every freshly opened position with non-negative
initial quantity, (a) the remaining quantity is non-negative after every
successful sequence of `add_take_profit` / `close` operations, and
(b) the equation `remaining = initial − Σ tp.quantity −
close_data.quantity` holds after every successful sequence made of
take-profit operations followed by at most one close — a second close
overwrites `close_data` and breaks the equation
(`double_close_breaks_remaining_equation`). -/
theorem remaining_quantity_equation_and_nonneg (p0 : Position) (h0 : Fresh p0)
    (hinit : 0 ≤ p0.initial_quantity) :
    (∀ (ops : List Op) (p : Position), applyOps p0 ops = .ok p →
      0 ≤ p.remaining_quantity) ∧
    (∀ (tpOps rest : List Op) (p : Position),
      (∀ o ∈ tpOps, ∃ price quantity level, o = Op.tp price quantity level) →
      (rest = [] ∨ ∃ price quantity, rest = [Op.close price quantity]) →
      applyOps p0 (tpOps ++ rest) = .ok p →
      p.remaining_quantity = p.initial_quantity - tpSum p - closeDataQty p) := by
  obtain ⟨htps, hcd, hst, hrem⟩ := h0
  have hrem0 : 0 ≤ p0.remaining_quantity := by rw [hrem]; exact hinit
  have hI0 : QuantInv p0 := by
    refine ⟨hrem0, ?_, ?_⟩
    · rw [hrem]
      simp [tpSum, htps]
    · simp [closeDataQty, hcd]
  constructor
  · intro ops p h
    exact applyOps_ok_remaining_nonneg ops p0 p hrem0 h
  · intro tpOps rest p halltp hrest h
    rw [applyOps_append] at h
    cases hmid : applyOps p0 tpOps with
    | error e => rw [hmid] at h; simp [Except.bind] at h
    | ok pmid =>
      rw [hmid] at h
      simp only [Except.bind] at h
      have hImid := tp_run_preserves_inv tpOps halltp p0 pmid hI0 hmid
      rcases hrest with rfl | ⟨pr, qq, rfl⟩
      · simp only [applyOps, Except.ok.injEq] at h
        subst h
        obtain ⟨_, heq, hcdq⟩ := hImid
        rw [heq, hcdq, sub_zero]
      · simp only [applyOps] at h
        cases hc : applyOp pmid (Op.close pr qq) with
        | error e => rw [hc] at h; simp [Except.bind] at h
        | ok p1 =>
          rw [hc] at h
          simp only [Except.bind, Except.ok.injEq] at h
          subst h
          simp only [applyOp] at hc
          exact close_final_equation hImid hc

/-- The position produced by running one take-profit (quantity 3 at
level 1) and one full close (quantity 7) on `posFresh`. -/
def c2finalW : Position :=
  { asset := sampleAsset, direction := .LONG, initial_quantity := 10, entry_price := 100,
    bot_strategy := "strat", timeframe := "1h",
    take_profits := [{ level := 1, price := 110, quantity := 3 }],
    status := .CLOSED, remaining_quantity := 0,
    close_data := some { price := 100, quantity := 7, value := 700, reason := "Manual close" } }

/-- C2 witness: the theorem applied to the fresh position `posFresh`
and the concrete run `[TP 3 at level 1, close 7]`, whose final state is
`c2finalW`. -/
theorem remaining_quantity_equation_and_nonneg_witness :
    0 ≤ c2finalW.remaining_quantity ∧
      c2finalW.remaining_quantity =
        c2finalW.initial_quantity - tpSum c2finalW - closeDataQty c2finalW := by
  have hrun : applyOps posFresh [Op.tp 110 3 1, Op.close 100 7] = .ok c2finalW := by
    simp only [applyOps, applyOp, Position.add_take_profit, Position.close,
      Position.is_closed, posFresh, sampleAsset, c2finalW, Except.bind, Except.map]
    norm_num [min_def]
    try simp
    try norm_num [min_def]
    try simp
  have h := remaining_quantity_equation_and_nonneg posFresh
    ⟨rfl, rfl, rfl, rfl⟩ (by norm_num [posFresh])
  refine ⟨h.1 [Op.tp 110 3 1, Op.close 100 7] c2finalW hrun,
    h.2 [Op.tp 110 3 1] [Op.close 100 7] c2finalW ?_ (Or.inr ⟨100, 7, rfl⟩) hrun⟩
  intro o ho
  rw [List.mem_singleton] at ho
  subst ho
  exact ⟨110, 3, 1, rfl⟩

end AB
